import Mathlib

set_option maxRecDepth 100000

/-!
# Verification of the sops-operator repository

Shallow embedding of the sops-operator Go sources:
* `pkg/sops` (key loading, decryption driver error classification,
  decrypted-YAML parsing, payload validation), and
* `internal/controller` (the `SopsSecretReconciler` state machine,
  `buildSecret`, `reconcileDelete`).

Modelling conventions:
* Go strings are modelled by Lean `String` (Go byte-strings restricted to
  valid UTF-8; every string literal appearing in the sources is ASCII).
* Go `map[string]T` values are modelled by association lists
  (`List (String × T)`) with overwrite-on-insert semantics; Go maps have
  unique keys, which the well-formedness predicates below mirror.
* The external YAML parser (`gopkg.in/yaml.v3`) is modelled by an abstract
  parse outcome: decoding bytes into `map[string]interface{}` either fails
  (malformed input, empty stream, non-mapping root) or yields a root
  mapping of `Yaml` values.
* Go `float64` values are modelled as finite binary64 numbers written as
  `m * 2^e` with `|m| < 2^53`; the implementation-defined out-of-range
  float-to-int64 conversion is modelled with the x86-64 behaviour
  (out-of-range values convert to `-2^63`), which the theorems below never
  rely on for out-of-range inputs beyond the fact that no `int64` value
  converts back to a float above `2^63`.
-/

namespace SopsOperator

/-! ## YAML values

`Yaml` models the values produced by `gopkg.in/yaml.v3` when decoding into
`interface{}`: strings, integers (`int`/`int64`, collapsed into one
constructor as both take the same `%d` branch), finite floats (`float64`,
as binary64 mantissa/exponent), booleans, null, `!!binary` byte strings
(`[]byte`, carried as their byte content, restricted to valid UTF-8),
nested mappings (`map[string]interface{}`) and sequences (`[]interface{}`).
-/

inductive Yaml where
  | str (s : String)
  | int (n : Int)
  | float (m : Int) (e : Int)
  | bool (b : Bool)
  | null
  | bytes (s : String)
  | map (entries : List (String × Yaml))
  | seq (items : List Yaml)

/-- First-match lookup in a YAML mapping (Go map indexing; keys are unique). -/
def lookupKey : List (String × Yaml) → String → Option Yaml
  | [], _ => none
  | (k, v) :: rest, key => if k = key then some v else lookupKey rest key

/-- Outcome of decoding a byte stream into `map[string]interface{}` with
`gopkg.in/yaml.v3`: failure (malformed YAML, empty stream, or a root that is
not a mapping — the typed unmarshal rejects all of these) or a root mapping. -/
inductive YamlParse where
  | fail
  | root (entries : List (String × Yaml))

/-! ## Payload validator (`pkg/sops` `ValidateEncryptedYAML`)

Direct translation of the Go function.  `parse` stands for the external
`yaml.Unmarshal` into `map[string]interface{}` applied to the UTF-8 bytes
of the input; the length-zero check is on the raw bytes, i.e. on the empty
string. -/

def validateEncryptedYAML (parse : String → YamlParse) (data : String) :
    Except String Unit :=
  if data = "" then
    .error "empty YAML data"
  else
    match parse data with
    | .fail => .error "invalid YAML"
    | .root raw =>
      match lookupKey raw "sops" with
      | none => .error "missing sops metadata block"
      | some sopsMetadata =>
        match sopsMetadata with
        | .map sopsMap =>
          match lookupKey sopsMap "mac" with
          | none => .error "missing MAC in sops metadata"
          | some _ => .ok ()
        | _ => .error "invalid sops metadata block"

/-- The acceptance predicate in the spec's words for claim C2: the input is
non-empty, parses to a root mapping, has a `sops` key whose value is a
mapping, and that mapping has a **non-empty** `mac` field. -/
def specC2Accepts (parse : String → YamlParse) (data : String) : Prop :=
  data ≠ "" ∧
    ∃ raw sopsMap mac,
      parse data = .root raw ∧
      lookupKey raw "sops" = some (.map sopsMap) ∧
      lookupKey sopsMap "mac" = some mac ∧
      mac ≠ .str "" ∧ mac ≠ .null

/-- The acceptance predicate actually implemented: same, but the `mac`
field merely has to be present (its value may be empty). -/
def amendedC2Accepts (parse : String → YamlParse) (data : String) : Prop :=
  data ≠ "" ∧
    ∃ raw sopsMap mac,
      parse data = .root raw ∧
      lookupKey raw "sops" = some (.map sopsMap) ∧
      lookupKey sopsMap "mac" = some mac

/-- Parser oracle for the C2 counterexample: the concrete document
`sops:\n  mac: ""` decodes to a root mapping whose `sops` value is a mapping
with an empty-string `mac`. -/
def c2Parse : String → YamlParse := fun data =>
  if data = "sops:\n  mac: \x22\x22\n" then
    .root [("sops", .map [("mac", .str "")])]
  else .fail

/-! ## String and byte helpers

UTF-8 encoding (Go `[]byte(s)` on a valid-UTF-8 string) and Go's numeric
formatting verbs as used by `pkg/sops`: `%d` (decimal integers), `%t`
(booleans).  The encoder follows RFC 3629, matching Go's byte view of a
string. -/

def utf8Char (c : Char) : List Nat :=
  let n := c.toNat
  if n < 0x80 then [n]
  else if n < 0x800 then
    [0xC0 ||| (n >>> 6), 0x80 ||| (n &&& 0x3F)]
  else if n < 0x10000 then
    [0xE0 ||| (n >>> 12), 0x80 ||| ((n >>> 6) &&& 0x3F), 0x80 ||| (n &&& 0x3F)]
  else
    [0xF0 ||| (n >>> 18), 0x80 ||| ((n >>> 12) &&& 0x3F),
      0x80 ||| ((n >>> 6) &&& 0x3F), 0x80 ||| (n &&& 0x3F)]

/-- The UTF-8 bytes of a string: Go's `[]byte(s)`. -/
def utf8Bytes (s : String) : List Nat := s.data.flatMap utf8Char

/-- Decimal representation of a natural number. -/
def natDecRepr (n : Nat) : String := String.mk (Nat.toDigits 10 n)

/-- Go `fmt.Sprintf("%d", n)` for a (signed) integer. -/
def goIntRepr (n : Int) : String :=
  if n < 0 then "-" ++ natDecRepr n.natAbs else natDecRepr n.natAbs

/-- Go `fmt.Sprintf("%t", b)`. -/
def goBoolRepr (b : Bool) : String := if b then "true" else "false"

/-! ## Go `float64` semantics

A finite binary64 value is written `m * 2^e` with `|m| < 2^53`.  The pieces
of Go semantics used by `convertToDecryptedData`'s `float64` branch
(`if v == float64(int64(v))`) are modelled over `ℚ`:

* `goTruncInt64` is the conversion `int64(v)`: truncation toward zero for
  in-range values; out-of-range conversions are implementation-defined in
  the Go specification and modelled with the x86-64 result `-2^63`.  (No
  theorem below depends on the out-of-range result beyond the fact that it
  is some `int64` value, whose float64 image can never reach above `2^63`.)
* `float64OfInt` is the conversion `float64(n)`: exact below `2^53`,
  round-to-nearest (ties to even) above. -/

/-- Truncation of a rational toward zero (the rounding used by Go's
float-to-int conversions). -/
def ratTrunc (q : ℚ) : Int := if 0 ≤ q then ⌊q⌋ else ⌈q⌉

/-- Go `int64(v)` on a finite float value, x86-64 behaviour out of range. -/
def goTruncInt64 (q : ℚ) : Int :=
  if -(2 ^ 63 : ℚ) < q ∧ q < (2 ^ 63 : ℚ) then ratTrunc q else -(2 ^ 63)

/-- Round a rational to the nearest integer, ties to even. -/
def rhe (q : ℚ) : Int :=
  let f := ⌊q⌋
  if q - f < 1 / 2 then f
  else if (1 : ℚ) / 2 < q - f then f + 1
  else if f % 2 = 0 then f else f + 1

/-- Go `float64(n)` for an `int64` value `n`: the binary64 value nearest to
`n` (ties to even); exact when `|n| < 2^53`. -/
def float64OfInt (t : Int) : ℚ :=
  if t.natAbs < 2 ^ 53 then (t : ℚ)
  else
    (rhe ((t : ℚ) / 2 ^ (t.natAbs.log2 - 52)) : ℚ) * 2 ^ (t.natAbs.log2 - 52)

/-- The value of the binary64 number `m * 2^e`. -/
def f64Val (m e : Int) : ℚ := (m : ℚ) * (2 : ℚ) ^ e

/-! ## Go `%g` shortest round-trip formatting

`fmt.Sprintf("%g", v)` renders a `float64` with the smallest number of
significant digits that reparses to the same binary64 value, switching to
scientific notation when the decimal exponent is below `-4` or at least `6`
(the `eprec = 6` rule of `strconv`'s shortest `'g'` format).

The pipeline below is a kernel-executable mirror of that algorithm over
exact rational arithmetic, with rationals carried as raw
numerator/denominator pairs (`QPair`, positive denominator by
construction, no normalization — only comparisons, floors and scalings by
powers of 2 and 10 are needed).  It models normal (non-subnormal, finite)
values, which covers every float the conversion code can reach. -/

structure QPair where
  n : Int
  d : Int

def QPair.leb (a b : QPair) : Bool := a.n * b.d ≤ b.n * a.d

def QPair.eqb (a b : QPair) : Bool := a.n * b.d = b.n * a.d

def QPair.floorQ (a : QPair) : Int := Int.fdiv a.n a.d

def QPair.absQ (a : QPair) : QPair := ⟨if a.n < 0 then -a.n else a.n, a.d⟩

/-- `m * 2^k` as a `QPair`. -/
def scalePow2 (m : Int) (k : Int) : QPair :=
  if 0 ≤ k then ⟨m * 2 ^ k.toNat, 1⟩ else ⟨m, 2 ^ (-k).toNat⟩

/-- `m * 10^k` as a `QPair`. -/
def scalePow10 (m : Int) (k : Int) : QPair :=
  if 0 ≤ k then ⟨m * 10 ^ k.toNat, 1⟩ else ⟨m, 10 ^ (-k).toNat⟩

/-- Multiply a `QPair` by `10^k`. -/
def QPair.mulPow10 (a : QPair) (k : Int) : QPair :=
  if 0 ≤ k then ⟨a.n * 10 ^ k.toNat, a.d⟩ else ⟨a.n, a.d * 10 ^ (-k).toNat⟩

/-- Multiply a `QPair` by `2^k`. -/
def QPair.mulPow2 (a : QPair) (k : Int) : QPair :=
  if 0 ≤ k then ⟨a.n * 2 ^ k.toNat, a.d⟩ else ⟨a.n, a.d * 2 ^ (-k).toNat⟩

/-- Round half to even on a `QPair` (mirror of `rhe`). -/
def rheQ (a : QPair) : Int :=
  let f := a.floorQ
  let r2 := 2 * (a.n - f * a.d)
  if r2 < a.d then f
  else if a.d < r2 then f + 1
  else if f % 2 = 0 then f else f + 1

/-- Fuel-driven binary length (`bitLen n = k+1` iff `2^k ≤ n < 2^(k+1)`);
the fuel of 5000 covers every magnitude a binary64-derived rational can
reach. -/
def bitLenAux : Nat → Nat → Nat
  | 0, _ => 0
  | fuel + 1, n => if n = 0 then 0 else bitLenAux fuel (n / 2) + 1

def bitLen (n : Nat) : Nat := bitLenAux 5000 n

/-- Floor of the base-2 logarithm of a positive `QPair`. -/
def floorLog2Q (a : QPair) : Int :=
  if QPair.leb ⟨1, 1⟩ a then (bitLen a.floorQ.toNat : Int) - 1
  else
    let j : Int := (bitLen (QPair.floorQ ⟨a.d, a.n⟩).toNat : Int) - 1
    if QPair.leb (scalePow2 1 (-j)) a then -j else -j - 1

/-- Round a positive rational to the binary64 grid (nearest, ties to even),
normal range. -/
def f64RoundQ (a : QPair) : QPair :=
  if a.n = 0 then ⟨0, 1⟩
  else
    let b := a.absQ
    let sh := floorLog2Q b - 52
    let m := rheQ (b.mulPow2 (-sh))
    scalePow2 (if a.n < 0 then -m else m) sh

def digitLen (n : Nat) : Nat := (Nat.toDigits 10 n).length

/-- Decimal exponent of a positive `QPair`: the `dp` with
`10^(dp-1) ≤ a < 10^dp`. -/
def decExpQ (a : QPair) : Int :=
  if QPair.leb ⟨1, 1⟩ a then (digitLen a.floorQ.toNat : Int)
  else
    let d : Int := (digitLen (QPair.floorQ ⟨a.d, a.n⟩).toNat : Int)
    if QPair.leb (scalePow10 1 (1 - d)) a then 2 - d else 1 - d

/-- Round a positive value to `p` significant decimal digits; returns the
digit block and the (possibly bumped) decimal exponent. -/
def roundSigQ (a : QPair) (dp : Int) (p : Nat) : Int × Int :=
  let n := rheQ (a.mulPow10 ((p : Int) - dp))
  if n = 10 ^ p then ((10 : Int) ^ (p - 1), dp + 1) else (n, dp)

/-- Shortest digit block (at most 17 digits) whose decimal value reparses
to the given positive binary64 value. -/
def shortestDigitsQ (v : QPair) : Int × Int :=
  let dp0 := decExpQ v
  match (List.range 17).findSome? (fun i =>
      let p := i + 1
      let nd := roundSigQ v dp0 p
      if QPair.eqb (f64RoundQ (scalePow10 nd.1 (nd.2 - p))) v then some nd
      else none) with
  | some nd => nd
  | none => roundSigQ v dp0 17

def stripZerosAux : Nat → Nat → Nat
  | 0, n => n
  | fuel + 1, n => if n % 10 = 0 ∧ n ≠ 0 then stripZerosAux fuel (n / 10) else n

/-- Drop trailing zeros of a digit block. -/
def stripZeros (n : Nat) : Nat := stripZerosAux 40 n

def zeroString (k : Nat) : String := String.mk (List.replicate k '0')

/-- Fixed-point rendering of `0.digits * 10^dp`. -/
def fmtF (digits : String) (dp : Int) : String :=
  if dp ≤ 0 then "0." ++ zeroString (-dp).toNat ++ digits
  else if (digits.length : Int) ≤ dp then
    digits ++ zeroString (dp - digits.length).toNat
  else digits.take dp.toNat ++ "." ++ digits.drop dp.toNat

/-- Scientific rendering of `0.digits * 10^dp` (exponent printed with at
least two digits, as Go does). -/
def fmtE (digits : String) (dp : Int) : String :=
  let exp := dp - 1
  let es := if exp < 0 then "-" else "+"
  let en := natDecRepr (if exp < 0 then (-exp).toNat else exp.toNat)
  let en' := if en.length < 2 then "0" ++ en else en
  digits.take 1 ++ (if 1 < digits.length then "." ++ digits.drop 1 else "")
    ++ "e" ++ es ++ en'

/-- Go `fmt.Sprintf("%g", v)` on the finite float `m * 2^e`. -/
def goFormatG (m e : Int) : String :=
  if m = 0 then "0"
  else
    let vq := scalePow2 m e
    let sign := if m < 0 then "-" else ""
    let nd := shortestDigitsQ vq.absQ
    let digits := natDecRepr (stripZeros nd.1.toNat)
    sign ++ (if nd.2 - 1 < -4 ∨ 6 ≤ nd.2 - 1 then fmtE digits nd.2
             else fmtF digits nd.2)

/-! ## Model of the external YAML emitter (`yaml.Marshal`)

`convertToDecryptedData` re-serializes composite values (nested mappings
and sequences) with `gopkg.in/yaml.v3`'s `Marshal` and strips the trailing
newline.  The emitter below models yaml.v3's default block style on the
embedded `Yaml` subset (plain scalars, two-space indents); it is
fuel-bounded (structural recursion for the kernel), with fuel far beyond
any nesting depth used here.  The theorems treat it as the canonical
serializer — they never depend on its output shape. -/

def indentStr (k : Nat) : String := String.mk (List.replicate (2 * k) ' ')

def yamlScalarStr (v : Yaml) : String :=
  match v with
  | .str s => s
  | .bytes s => "!!binary " ++ s
  | .int n => goIntRepr n
  | .float m e => goFormatG m e
  | .bool b => goBoolRepr b
  | .null => "null"
  | .map _ => ""
  | .seq _ => ""

def yamlMarshalAux : Nat → Nat → Yaml → String
  | 0, _, _ => ""
  | fuel + 1, ind, v =>
    match v with
    | .map [] => indentStr ind ++ "{}\n"
    | .map entries =>
      String.join (entries.map (fun kv =>
        match kv.2 with
        | .map (_ :: _) =>
          indentStr ind ++ kv.1 ++ ":\n" ++ yamlMarshalAux fuel (ind + 1) kv.2
        | .seq (_ :: _) =>
          indentStr ind ++ kv.1 ++ ":\n" ++ yamlMarshalAux fuel ind kv.2
        | w => indentStr ind ++ kv.1 ++ ": " ++ yamlScalarStr w ++ "\n"))
    | .seq [] => indentStr ind ++ "[]\n"
    | .seq items =>
      String.join (items.map (fun w =>
        match w with
        | .map (_ :: _) => indentStr ind ++ "-\n" ++ yamlMarshalAux fuel (ind + 1) w
        | .seq (_ :: _) => indentStr ind ++ "-\n" ++ yamlMarshalAux fuel (ind + 1) w
        | _ => indentStr ind ++ "- " ++ yamlScalarStr w ++ "\n"))
    | w => yamlScalarStr w ++ "\n"

/-- Model of `yaml.Marshal` (block style, trailing newline included). -/
def yamlMarshal (v : Yaml) : String := yamlMarshalAux 1000 0 v

/-- Go `bytes.TrimSuffix(b, []byte("\n"))`: drop one trailing newline. -/
def trimNewline (s : String) : String :=
  if s.data.getLast? = some (Char.ofNat 10) then s.dropRight 1 else s

/-! ## `pkg/sops` decrypted-output parsing

Translation of `parseDecryptedYAML`, `parseCRDDecryptedYAML` and
`convertToDecryptedData` (`pkg/sops/decrypt.go`).  The Go `switch` over
`interface{}` values maps onto the `Yaml` constructors; the `int` and
`int64` cases take the same `%d` branch and are collapsed into `.int`.
Every branch assigns `Data[key]` the bytes of the same string stored in
`StringData[key]`, so the conversion is factored through `convertValue`,
exactly as each Go branch computes `str` and stores `[]byte(str)` and
`str`. -/

/-- The string form a decrypted YAML value is converted to
(`convertToDecryptedData`'s switch). -/
def convertValue (v : Yaml) : String :=
  match v with
  | .str s => s
  | .bytes s => s
  | .int n => goIntRepr n
  | .float m e =>
    if f64Val m e = float64OfInt (goTruncInt64 (f64Val m e)) then
      goIntRepr (goTruncInt64 (f64Val m e))
    else goFormatG m e
  | .bool b => goBoolRepr b
  | .null => ""
  | .map entries => trimNewline (yamlMarshal (.map entries))
  | .seq items => trimNewline (yamlMarshal (.seq items))

/-- The decrypted secret data: parallel byte and string views
(`sops.DecryptedData`). -/
structure DecryptedData where
  Data : List (String × List Nat)
  StringData : List (String × String)

def convertToDecryptedData (raw : List (String × Yaml)) : DecryptedData :=
  { Data := raw.map (fun kv => (kv.1, utf8Bytes (convertValue kv.2)))
    StringData := raw.map (fun kv => (kv.1, convertValue kv.2)) }

/-- Go `delete(raw, "sops")`. -/
def removeKey (l : List (String × Yaml)) (k : String) : List (String × Yaml) :=
  l.filter (fun kv => kv.1 ≠ k)

/-- `parseDecryptedYAML` (legacy flat format): parse, drop the top-level
`sops` key, convert. -/
def parseDecryptedYAML (x : YamlParse) : Except String DecryptedData :=
  match x with
  | .fail => .error "failed to parse decrypted YAML"
  | .root raw => .ok (convertToDecryptedData (removeKey raw "sops"))

/-- `parseCRDDecryptedYAML`: extract `spec.data` (both must be mappings)
and convert. -/
def parseCRDDecryptedYAML (x : YamlParse) : Except String DecryptedData :=
  match x with
  | .fail => .error "failed to parse decrypted YAML"
  | .root raw =>
    match lookupKey raw "spec" with
    | some (.map spec) =>
      match lookupKey spec "data" with
      | some (.map dataField) => .ok (convertToDecryptedData dataField)
      | _ => .error "missing or invalid 'spec.data' field in decrypted YAML"
    | _ => .error "missing or invalid 'spec' field in decrypted YAML"

/-- Generic first-match association-list lookup (Go map indexing). -/
def lookupKV {α : Type} : List (String × α) → String → Option α
  | [], _ => none
  | (k, v) :: rest, key => if k = key then some v else lookupKV rest key

/-- The string view at key `k` of a successfully parsed legacy document
(used to state concrete evaluations without binders). -/
def stringDataAt (x : YamlParse) (k : String) : Option String :=
  match parseDecryptedYAML x with
  | .ok d => lookupKV d.StringData k
  | .error _ => none

/-! ## SHA-256 (`calculateHash` in the controller)

`calculateHash(data)` returns `hex.EncodeToString(sha256.Sum256([]byte(data)))`.
A full executable FIPS 180-4 SHA-256 over byte lists: 32-bit words are
naturals reduced mod `2^32`; round constants are derived from the
fractional parts of the square/cube roots of the first primes, as in the
standard. -/

def M32 : Nat := 2 ^ 32

def rotr (n x : Nat) : Nat := ((x >>> n) ||| (x <<< (32 - n))) % M32

def isPrimeNat (n : Nat) : Bool :=
  decide (2 ≤ n) && ((List.range n).drop 2).all (fun d => n % d ≠ 0)

def primes64 : List Nat := ((List.range 400).filter isPrimeNat).take 64

/-- Fuel-driven integer square root by binary search. -/
def isqrtAux : Nat → Nat → Nat → Nat → Nat
  | 0, lo, _, _ => lo
  | fuel + 1, lo, hi, t =>
    if hi ≤ lo + 1 then lo
    else
      let mid := (lo + hi) / 2
      if mid * mid ≤ t then isqrtAux fuel mid hi t else isqrtAux fuel lo mid t

def isqrt (t : Nat) : Nat := isqrtAux 200 0 (t + 2) t

/-- Fuel-driven integer cube root by binary search. -/
def icbrtAux : Nat → Nat → Nat → Nat → Nat
  | 0, lo, _, _ => lo
  | fuel + 1, lo, hi, t =>
    if hi ≤ lo + 1 then lo
    else
      let mid := (lo + hi) / 2
      if mid * mid * mid ≤ t then icbrtAux fuel mid hi t else icbrtAux fuel lo mid t

def icbrt (t : Nat) : Nat := icbrtAux 200 0 (t + 2) t

/-- Initial hash state: fractional parts of the square roots of the first
eight primes. -/
def sha256H0 : List Nat := (primes64.take 8).map (fun p => isqrt (p * 2 ^ 64) % M32)

/-- Round constants: fractional parts of the cube roots of the first 64
primes. -/
def sha256K : List Nat := primes64.map (fun p => icbrt (p * 2 ^ 96) % M32)

/-- Big-endian byte rendering of `n` in `k` bytes. -/
def bytesBE (k n : Nat) : List Nat :=
  (List.range k).map (fun i => (n >>> (8 * (k - 1 - i))) % 256)

/-- SHA-256 padding: `0x80`, zeros to 56 mod 64, 8-byte big-endian bit
length. -/
def sha256Pad (msg : List Nat) : List Nat :=
  let z := (120 - (msg.length + 1) % 64) % 64
  msg ++ [0x80] ++ List.replicate z 0 ++ bytesBE 8 (8 * msg.length)

/-- Group bytes into big-endian 32-bit words. -/
def toWords : List Nat → List Nat
  | a :: b :: c :: d :: rest => (((a * 256 + b) * 256 + c) * 256 + d) :: toWords rest
  | _ => []

def smallSigma0 (x : Nat) : Nat := rotr 7 x ^^^ rotr 18 x ^^^ (x >>> 3)

def smallSigma1 (x : Nat) : Nat := rotr 17 x ^^^ rotr 19 x ^^^ (x >>> 10)

/-- Message schedule: extend 16 words to 64. -/
def sha256Schedule (w16 : List Nat) : List Nat :=
  (List.range 48).foldl
    (fun w _ =>
      w ++ [(smallSigma1 (w.getD (w.length - 2) 0) + w.getD (w.length - 7) 0 +
          smallSigma0 (w.getD (w.length - 15) 0) + w.getD (w.length - 16) 0) % M32])
    w16

/-- One round of the compression function on the `[a,b,c,d,e,f,g,h]`
state. -/
def sha256Round : List Nat → Nat × Nat → List Nat
  | [a, b, c, d, e, f, g, hh], (k, w) =>
    let S1 := rotr 6 e ^^^ rotr 11 e ^^^ rotr 25 e
    let ch := (e &&& f) ^^^ ((e ^^^ (M32 - 1)) &&& g)
    let t1 := (hh + S1 + ch + k + w) % M32
    let S0 := rotr 2 a ^^^ rotr 13 a ^^^ rotr 22 a
    let mj := (a &&& b) ^^^ (a &&& c) ^^^ (b &&& c)
    let t2 := (S0 + mj) % M32
    [(t1 + t2) % M32, a, b, c, (d + t1) % M32, e, f, g]
  | s, _ => s

/-- Compress one 64-byte block into the state. -/
def sha256Compress (h : List Nat) (block : List Nat) : List Nat :=
  let s := (sha256K.zip (sha256Schedule (toWords block))).foldl sha256Round h
  (h.zip s).map (fun xy => (xy.1 + xy.2) % M32)

def chunks64Aux : Nat → List Nat → List (List Nat)
  | 0, _ => []
  | _ + 1, [] => []
  | fuel + 1, l => l.take 64 :: chunks64Aux fuel (l.drop 64)

/-- SHA-256 digest (32 bytes) of a byte list. -/
def sha256 (msg : List Nat) : List Nat :=
  let p := sha256Pad msg
  ((chunks64Aux p.length p).foldl sha256Compress sha256H0).flatMap (bytesBE 4)

def hexChar (n : Nat) : Char := "0123456789abcdef".data.getD n '0'

def hexByte (b : Nat) : String := String.mk [hexChar (b / 16), hexChar (b % 16)]

/-- `hex.EncodeToString`. -/
def bytesToHex (l : List Nat) : String := String.join (l.map hexByte)

/-- `calculateHash` (`internal/controller`): hex-encoded SHA-256 of the
UTF-8 bytes of the input string. -/
def calculateHash (data : String) : String := bytesToHex (sha256 (utf8Bytes data))

/-! ## Controller data model (`api/v1alpha1`, `internal/controller`)

The `SopsSecret` custom resource (legacy opaque-payload schema:
`spec.sopsSecret` carries the full SOPS YAML), the derived Kubernetes
Secret, and conditions.  Condition transition timestamps and the wall
clock are not modelled (`lastDecryptedTime` is kept as a set-flag); no
claim mentions them. -/

structure SopsSecretSpecData where
  sopsSecret : String
  secretName : String
  secretType : String
  secretLabels : List (String × String)
  secretAnnotations : List (String × String)
  suspend : Bool

structure ConditionData where
  condType : String
  status : String
  observedGeneration : Int
  reason : String
  message : String

structure SopsSecretStatusData where
  secretName : String
  lastDecryptedHash : String
  lastDecryptedTime : Bool
  observedGeneration : Int
  conditions : List ConditionData

structure SopsSecretRes where
  name : String
  ns : String
  generation : Int
  deletionTimestamp : Bool
  finalizers : List String
  spec : SopsSecretSpecData
  status : SopsSecretStatusData

structure K8sSecret where
  name : String
  ns : String
  labels : List (String × String)
  annotations : List (String × String)
  secretType : String
  data : List (String × List Nat)

/-- Go map assignment `m[k] = v` on an association list. -/
def insertKV {α : Type} : List (String × α) → String → α → List (String × α)
  | [], k, v => [(k, v)]
  | (k', v') :: rest, k, v =>
    if k' = k then (k, v) :: rest else (k', v') :: insertKV rest k v

def finalizerName : String := "secrets.gg.io/finalizer"

/-- `getSecretName`: `spec.secretName` if set, else the resource name. -/
def getSecretName (s : SopsSecretRes) : String :=
  if s.spec.secretName ≠ "" then s.spec.secretName else s.name

/-- `buildSecret`: fixed labels/annotations first, then the user-supplied
entries (`for k, v := range spec.secretLabels { labels[k] = v }` — a later
assignment overwrites an earlier one).  Go map iteration order is
unspecified; user maps have unique keys, so the fold order is
immaterial. -/
def buildSecret (s : SopsSecretRes) (decrypted : DecryptedData) : K8sSecret :=
  let secretType := if s.spec.secretType = "" then "Opaque" else s.spec.secretType
  let fixedLabels :=
    insertKV (insertKV [] "app.kubernetes.io/managed-by" "sops-operator")
      "secrets.gg.io/sopssecret" s.name
  let labels := s.spec.secretLabels.foldl (fun acc kv => insertKV acc kv.1 kv.2) fixedLabels
  let fixedAnnotations := insertKV [] "secrets.gg.io/source" (s.ns ++ "/" ++ s.name)
  let annotations :=
    s.spec.secretAnnotations.foldl (fun acc kv => insertKV acc kv.1 kv.2) fixedAnnotations
  { name := getSecretName s, ns := s.ns, labels := labels, annotations := annotations,
    secretType := secretType, data := decrypted.Data }

/-- `meta.SetStatusCondition`: replace the entry of the same type, else
append. -/
def setCondInList : List ConditionData → ConditionData → List ConditionData
  | [], c => [c]
  | c' :: rest, c => if c'.condType = c.condType then c :: rest else c' :: setCondInList rest c

/-- `setCondition` on the reconciler. -/
def setCondition (s : SopsSecretRes) (t status reason message : String) : SopsSecretRes :=
  { s with status :=
      { s.status with
        conditions := setCondInList s.status.conditions
          ⟨t, status, s.generation, reason, message⟩ } }

def getCondition (conds : List ConditionData) (t : String) : Option ConditionData :=
  conds.find? (fun c => c.condType = t)

/-! ## Reconciler state machine (`Reconcile`, `reconcileDelete`)

External calls (API server reads/writes, the decryption subprocess) are
oracles recorded in `Env`: each field is the result the corresponding call
would return on this pass.  The reconciler's outcome is its returned
`(ctrl.Result, error)` pair plus the ordered list of externally visible
actions it performed. -/

inductive GetResult (α : Type) where
  | ok (a : α)
  | notFound
  | err (e : String)

inductive ApiResult where
  | ok
  | err (e : String)

/-- Result of `r.Delete` (not-found is ignored by the caller). -/
inductive DelResult where
  | ok
  | notFound
  | err (e : String)

/-- What the reconciler inspects about a fetched Secret:
`metav1.IsControlledBy(secret, sopsSecret)`. -/
structure SecretView where
  controlledBy : Bool

structure Env where
  fetch : GetResult SopsSecretRes
  updateResource : ApiResult
  getSecretSkip : GetResult SecretView
  parseYaml : String → YamlParse
  decrypt : Except String DecryptedData
  setOwnerRef : ApiResult
  getSecretApply : GetResult SecretView
  createSecret : ApiResult
  updateSecret : ApiResult
  statusUpdate : ApiResult
  getSecretDelete : GetResult SecretView
  deleteSecret : DelResult

inductive Action where
  | decryptCall
  | createSecretAct (s : K8sSecret)
  | updateSecretAct (s : K8sSecret)
  | deleteSecretAct (name : String)
  | statusWrite (st : SopsSecretStatusData)
  | resourceUpdate (finalizers : List String)
  | eventNormal (reason : String)
  | eventWarning (reason : String)

structure CtrlResult where
  requeue : Bool
  requeueAfterSeconds : Nat
  deriving DecidableEq

def emptyResult : CtrlResult := ⟨false, 0⟩

/-- `ctrl.Result{RequeueAfter: 5 * time.Minute}` (seconds). -/
def requeue5min : CtrlResult := ⟨false, 5 * 60⟩

structure Outcome where
  res : Except String CtrlResult
  actions : List Action

/-- `updateStatus`: write status; on success requeue after 5 minutes. -/
def updateStatusOutcome (env : Env) (s : SopsSecretRes) (acts : List Action) : Outcome :=
  match env.statusUpdate with
  | .err e => ⟨.error e, acts ++ [.statusWrite s.status]⟩
  | .ok => ⟨.ok requeue5min, acts ++ [.statusWrite s.status]⟩

/-- `reconcileDelete`: delete the derived Secret if present and controlled
by this resource (ignoring not-found), then remove the finalizer. -/
def reconcileDelete (env : Env) (s : SopsSecretRes) : Outcome :=
  if finalizerName ∈ s.finalizers then
    let removeFin : List Action → Outcome := fun acts =>
      match env.updateResource with
      | .err e => ⟨.error e, acts ++ [.resourceUpdate (s.finalizers.filter (· ≠ finalizerName))]⟩
      | .ok => ⟨.ok emptyResult, acts ++ [.resourceUpdate (s.finalizers.filter (· ≠ finalizerName))]⟩
    match env.getSecretDelete with
    | .ok secret =>
      if secret.controlledBy then
        match env.deleteSecret with
        | .err e => ⟨.error e, [.deleteSecretAct (getSecretName s)]⟩
        | _ => removeFin [.deleteSecretAct (getSecretName s), .eventNormal "SecretDeleted"]
      else removeFin []
    | .notFound => removeFin []
    | .err e => ⟨.error e, []⟩
  else ⟨.ok emptyResult, []⟩

/-- Step 10 of the reconciler: fill in status fields and set `Ready=True`,
then write status. -/
def commitStatus (env : Env) (s : SopsSecretRes) (secret : K8sSecret) (hash : String)
    (acts : List Action) : Outcome :=
  let s' := { s with status := { s.status with
      secretName := secret.name
      lastDecryptedHash := hash
      lastDecryptedTime := true
      observedGeneration := s.generation } }
  let s'' := setCondition s' "Ready" "True" "Success"
    ("Secret " ++ secret.name ++ " is up to date")
  updateStatusOutcome env s'' acts

/-- The main flow after the digest-skip check: validate, decrypt, build and
apply the Secret, commit status. -/
def reconcileMain (env : Env) (s : SopsSecretRes) (hash : String) : Outcome :=
  match validateEncryptedYAML env.parseYaml s.spec.sopsSecret with
  | .error verr =>
    let s1 := setCondition s "Decrypted" "False" "ValidationFailed"
      ("Invalid SOPS YAML: " ++ verr)
    let s2 := setCondition s1 "Ready" "False" "ValidationFailed"
      "SOPS YAML validation failed"
    updateStatusOutcome env s2 [.eventWarning "ValidationFailed"]
  | .ok _ =>
    match env.decrypt with
    | .error derr =>
      let s1 := setCondition s "Decrypted" "False" "DecryptFailed" derr
      let s2 := setCondition s1 "Ready" "False" "DecryptFailed"
        "Failed to decrypt SOPS data"
      updateStatusOutcome env s2 [.decryptCall, .eventWarning "DecryptFailed"]
    | .ok decrypted =>
      let s1 := setCondition s "Decrypted" "True" "Success"
        "Successfully decrypted SOPS data"
      let secret := buildSecret s1 decrypted
      match env.setOwnerRef with
      | .err e => ⟨.error e, [.decryptCall, .eventNormal "Decrypted"]⟩
      | .ok =>
        match env.getSecretApply with
        | .notFound =>
          match env.createSecret with
          | .err e => ⟨.error e,
              [.decryptCall, .eventNormal "Decrypted", .createSecretAct secret]⟩
          | .ok => commitStatus env s1 secret hash
              [.decryptCall, .eventNormal "Decrypted", .createSecretAct secret,
                .eventNormal "SecretCreated"]
        | .err e => ⟨.error e, [.decryptCall, .eventNormal "Decrypted"]⟩
        | .ok _ =>
          match env.updateSecret with
          | .err e => ⟨.error e,
              [.decryptCall, .eventNormal "Decrypted", .updateSecretAct secret]⟩
          | .ok => commitStatus env s1 secret hash
              [.decryptCall, .eventNormal "Decrypted", .updateSecretAct secret,
                .eventNormal "SecretUpdated"]

/-- `Reconcile` (one pass): fetch, deletion branch, finalizer branch,
suspension check, digest skip, then the main flow. -/
def reconcile (env : Env) : Outcome :=
  match env.fetch with
  | .notFound => ⟨.ok emptyResult, []⟩
  | .err e => ⟨.error e, []⟩
  | .ok s =>
    if s.deletionTimestamp then reconcileDelete env s
    else if finalizerName ∉ s.finalizers then
      match env.updateResource with
      | .err e => ⟨.error e, [.resourceUpdate (s.finalizers ++ [finalizerName])]⟩
      | .ok => ⟨.ok ⟨true, 0⟩, [.resourceUpdate (s.finalizers ++ [finalizerName])]⟩
    else if s.spec.suspend then ⟨.ok emptyResult, []⟩
    else
      let hash := calculateHash s.spec.sopsSecret
      if s.status.lastDecryptedHash = hash ∧ s.status.observedGeneration = s.generation then
        match env.getSecretSkip with
        | .ok _ => ⟨.ok emptyResult, []⟩
        | .err e => ⟨.error e, []⟩
        | .notFound => reconcileMain env s hash
      else reconcileMain env s hash

/-- The status as persisted at the end of a pass: the last status written
during the pass, else the incoming status. -/
def finalStatus (s : SopsSecretRes) (acts : List Action) : SopsSecretStatusData :=
  match acts.reverse.findSome? (fun a =>
      match a with
      | .statusWrite st => some st
      | _ => none) with
  | some st => st
  | none => s.status

/-! ## Key loader (`NewDecryptorFromEnv`)

Translation of `pkg/sops` `NewDecryptorFromEnv`.  The two environment
sources are parameters (`SOPS_AGE_KEY` value; `SOPS_AGE_KEY_FILE` path) and
file reading is an oracle.  `strings.Split(s, "\n")` keeps empty pieces;
`strings.TrimSpace` is modelled on the ASCII whitespace set (every
character the key format can produce). -/

def splitCharAux : List Char → List Char → List String
  | [], acc => [String.mk acc.reverse]
  | c :: rest, acc =>
    if c = Char.ofNat 10 then String.mk acc.reverse :: splitCharAux rest []
    else splitCharAux rest (c :: acc)

/-- `strings.Split(s, "\n")`. -/
def splitNewlines (s : String) : List String := splitCharAux s.data []

def isSpaceChar (c : Char) : Bool :=
  c = ' ' || c = Char.ofNat 9 || c = Char.ofNat 10 || c = Char.ofNat 11 ||
    c = Char.ofNat 12 || c = Char.ofNat 13

/-- `strings.TrimSpace`. -/
def trimSpace (s : String) : String :=
  String.mk (((s.data.dropWhile isSpaceChar).reverse.dropWhile isSpaceChar).reverse)

/-- `strings.HasPrefix(s, "#")`. -/
def startsWithHash (s : String) : Bool := s.data.head? = some '#'

structure Decryptor where
  ageKeys : List String
  ageKeyFile : String
  timeoutSeconds : Nat

def defaultDecryptTimeout : Nat := 30

def missingKeyMsg : String := "no AGE keys found in SOPS_AGE_KEY or SOPS_AGE_KEY_FILE"

/-- `NewDecryptorFromEnv` (options elided — they only adjust the
timeout). -/
def newDecryptorFromEnv (inlineKey keyFileVar : String)
    (readFile : String → Except String String) : Except String Decryptor :=
  let keys0 := if inlineKey ≠ "" then splitNewlines inlineKey else []
  let keysE : Except String (List String) :=
    if keyFileVar ≠ "" then
      match readFile keyFileVar with
      | .error e => .error ("failed to read AGE key file " ++ keyFileVar ++ ": " ++ e)
      | .ok data => .ok (keys0 ++ splitNewlines data)
    else .ok keys0
  match keysE with
  | .error e => .error e
  | .ok keys =>
    let validKeys := (keys.map trimSpace).filter fun k => k ≠ "" && !startsWithHash k
    if validKeys = [] then .error missingKeyMsg
    else .ok ⟨validKeys, keyFileVar, defaultDecryptTimeout⟩

/-! ## Decryption driver error classification (`runSopsDecrypt`)

After `cmd.Run()` returns an error, the driver inspects the derived child
context: deadline exceeded → timeout, canceled → canceled, otherwise the
subprocess failure with its stderr.  (`ctx.Err()` reports whichever of the
two happened first, so the two cases are mutually exclusive.) -/

inductive CtxErr where
  | none
  | deadlineExceeded
  | canceled

inductive RunResult where
  | ok (stdout : String)
  | exitErr (errMsg stderr : String)

inductive SopsError where
  | timeout
  | canceled
  | subprocessFailed (errMsg stderr : String)

/-- The error-classification chain of `runSopsDecrypt` /
`defaultCommandRunner`. -/
def classifyRunError (ctxErr : CtxErr) (errMsg stderr : String) : SopsError :=
  match ctxErr with
  | .deadlineExceeded => .timeout
  | .canceled => .canceled
  | .none => .subprocessFailed errMsg stderr

/-- Outcome of one decryption invocation given the command result and the
child context's state. -/
def runCommandResult (ctxErr : CtxErr) (run : RunResult) : Except SopsError String :=
  match run with
  | .ok out => .ok out
  | .exitErr errMsg stderr => .error (classifyRunError ctxErr errMsg stderr)

/-! ## Association-list lemmas -/

theorem lookupKV_insert_self {α : Type} (l : List (String × α)) (k : String) (v : α) :
    lookupKV (insertKV l k v) k = some v := by
  induction l with
  | nil => simp [insertKV, lookupKV]
  | cons kv rest ih =>
    obtain ⟨k', v'⟩ := kv
    by_cases h : k' = k
    · simp [insertKV, h, lookupKV]
    · simp [insertKV, h, lookupKV, ih]

theorem lookupKV_insert_other {α : Type} (l : List (String × α)) (k k' : String) (v : α)
    (h : k' ≠ k) : lookupKV (insertKV l k v) k' = lookupKV l k' := by
  induction l with
  | nil => simp [insertKV, lookupKV, Ne.symm h]
  | cons kv rest ih =>
    obtain ⟨k1, v1⟩ := kv
    by_cases h1 : k1 = k
    · subst h1
      simp [insertKV, lookupKV, Ne.symm h]
    · simp only [insertKV, if_neg h1, lookupKV]
      by_cases h2 : k1 = k'
      · simp [h2]
      · simp [h2, ih]

theorem lookupKV_eq_none_of_not_mem {α : Type} (l : List (String × α)) (k : String)
    (h : k ∉ l.map Prod.fst) : lookupKV l k = none := by
  induction l with
  | nil => rfl
  | cons kv rest ih =>
    obtain ⟨k1, v1⟩ := kv
    simp only [List.map_cons, List.mem_cons] at h
    push_neg at h
    simp [lookupKV, Ne.symm h.1, ih h.2]

/-- Folding Go map assignments over entries that do not contain `k` leaves
the binding of `k` unchanged. -/
theorem foldl_insert_lookup_of_none {α : Type} (l : List (String × α))
    (init : List (String × α)) (k : String) (h : lookupKV l k = none) :
    lookupKV (l.foldl (fun acc kv => insertKV acc kv.1 kv.2) init) k = lookupKV init k := by
  induction l generalizing init with
  | nil => rfl
  | cons kv rest ih =>
    obtain ⟨k1, v1⟩ := kv
    by_cases h1 : k1 = k
    · simp [lookupKV, h1] at h
    · simp only [lookupKV, if_neg h1] at h
      simp only [List.foldl_cons]
      rw [ih _ h, lookupKV_insert_other _ _ _ _ (fun h' => h1 h'.symm)]

/-- Folding Go map assignments over a unique-key entry list binds each of
its keys to its value. -/
theorem foldl_insert_lookup_of_some {α : Type} (l : List (String × α))
    (init : List (String × α)) (k : String) (v : α)
    (hnd : (l.map Prod.fst).Nodup) (h : lookupKV l k = some v) :
    lookupKV (l.foldl (fun acc kv => insertKV acc kv.1 kv.2) init) k = some v := by
  induction l generalizing init with
  | nil => cases h
  | cons kv rest ih =>
    obtain ⟨k1, v1⟩ := kv
    simp only [List.map_cons, List.nodup_cons] at hnd
    by_cases h1 : k1 = k
    · subst h1
      simp [lookupKV] at h
      subst h
      simp only [List.foldl_cons]
      rw [foldl_insert_lookup_of_none _ _ _
          (lookupKV_eq_none_of_not_mem _ _ hnd.1)]
      exact lookupKV_insert_self _ _ _
    · simp only [lookupKV, if_neg h1] at h
      simp only [List.foldl_cons]
      exact ih _ hnd.2 h

/-! ## Claim C1 — `buildSecret` label/annotation merge policy -/

/-- A `SopsSecret` whose user-supplied labels and annotations collide with
the operator's fixed keys. -/
def c1Spec : SopsSecretSpecData :=
  ⟨"payload", "", "", [("app.kubernetes.io/managed-by", "me")],
    [("secrets.gg.io/source", "other")], false⟩

def c1Resource : SopsSecretRes :=
  ⟨"app", "default", 1, false, [finalizerName], c1Spec, ⟨"", "", false, 0, []⟩⟩

def emptyDecrypted : DecryptedData := ⟨[], []⟩

/-- C1 counterexample: `buildSecret` writes user-supplied entries after the
fixed ones, so a user label with the key `app.kubernetes.io/managed-by`
(and a user annotation with the key `secrets.gg.io/source`) overrides the
fixed pair — the claim says fixed keys cannot be overridden. -/
theorem buildSecret_fixed_keys_overridden :
    lookupKV (buildSecret c1Resource emptyDecrypted).labels
        "app.kubernetes.io/managed-by" = some "me" ∧
      some "me" ≠ some "sops-operator" ∧
      lookupKV (buildSecret c1Resource emptyDecrypted).annotations
        "secrets.gg.io/source" = some "other" ∧
      some "other" ≠ some "default/app" := by
  refine ⟨rfl, by decide, rfl, by decide⟩

/-- C1 (amended): the labels of the built Secret are the fixed pairs
`app.kubernetes.io/managed-by=sops-operator`,
`secrets.gg.io/sopssecret=<name>` merged with `spec.secretLabels`, and the
annotations are `secrets.gg.io/source=<namespace>/<name>` merged with
`spec.secretAnnotations`, where **user-supplied keys win on collision**: a
fixed pair survives exactly when the user map does not bind its key, and
every user entry is present. -/
theorem buildSecret_merge_policy (s : SopsSecretRes) (d : DecryptedData)
    (hl : (s.spec.secretLabels.map Prod.fst).Nodup)
    (ha : (s.spec.secretAnnotations.map Prod.fst).Nodup) :
    (∀ k v, lookupKV s.spec.secretLabels k = some v →
       lookupKV (buildSecret s d).labels k = some v) ∧
    (lookupKV s.spec.secretLabels "app.kubernetes.io/managed-by" = none →
       lookupKV (buildSecret s d).labels "app.kubernetes.io/managed-by" =
         some "sops-operator") ∧
    (lookupKV s.spec.secretLabels "secrets.gg.io/sopssecret" = none →
       lookupKV (buildSecret s d).labels "secrets.gg.io/sopssecret" = some s.name) ∧
    (∀ k v, lookupKV s.spec.secretAnnotations k = some v →
       lookupKV (buildSecret s d).annotations k = some v) ∧
    (lookupKV s.spec.secretAnnotations "secrets.gg.io/source" = none →
       lookupKV (buildSecret s d).annotations "secrets.gg.io/source" =
         some (s.ns ++ "/" ++ s.name)) := by
  refine ⟨?_, ?_, ?_, ?_, ?_⟩
  · intro k v h
    exact foldl_insert_lookup_of_some _ _ _ _ hl h
  · intro h
    show lookupKV (s.spec.secretLabels.foldl _ _) _ = _
    rw [foldl_insert_lookup_of_none _ _ _ h]
    rw [lookupKV_insert_other _ _ _ _ (by decide)]
    exact lookupKV_insert_self _ _ _
  · intro h
    show lookupKV (s.spec.secretLabels.foldl _ _) _ = _
    rw [foldl_insert_lookup_of_none _ _ _ h]
    exact lookupKV_insert_self _ _ _
  · intro k v h
    exact foldl_insert_lookup_of_some _ _ _ _ ha h
  · intro h
    show lookupKV (s.spec.secretAnnotations.foldl _ _) _ = _
    rw [foldl_insert_lookup_of_none _ _ _ h]
    exact lookupKV_insert_self _ _ _

/-- Witness for C1's amended theorem at a concrete resource. -/
theorem buildSecret_merge_policy_witness :
    ((c1Resource.spec.secretLabels.map Prod.fst).Nodup ∧
      (c1Resource.spec.secretAnnotations.map Prod.fst).Nodup) ∧
      lookupKV (buildSecret c1Resource emptyDecrypted).labels
        "app.kubernetes.io/managed-by" = some "me" :=
  ⟨⟨by decide, by decide⟩,
    (buildSecret_merge_policy c1Resource emptyDecrypted (by decide) (by decide)).1
      "app.kubernetes.io/managed-by" "me" rfl⟩

/-! ## Claim C8 — key loader -/

/-- The surviving key lines in source order (inline first, then file):
split by line, trim, drop empties and `#` comments. -/
def validEnvKeys (inlineKey keyFileVar contents : String) : List String :=
  (((if inlineKey ≠ "" then splitNewlines inlineKey else []) ++
      (if keyFileVar ≠ "" then splitNewlines contents else [])).map trimSpace).filter
    fun k => k ≠ "" && !startsWithHash k

theorem newDecryptorFromEnv_eq (inlineKey keyFileVar contents : String)
    (readFile : String → Except String String)
    (hread : keyFileVar ≠ "" → readFile keyFileVar = .ok contents) :
    newDecryptorFromEnv inlineKey keyFileVar readFile =
      if validEnvKeys inlineKey keyFileVar contents = [] then .error missingKeyMsg
      else .ok ⟨validEnvKeys inlineKey keyFileVar contents, keyFileVar,
        defaultDecryptTimeout⟩ := by
  unfold newDecryptorFromEnv validEnvKeys
  by_cases hkf : keyFileVar = ""
  · subst hkf
    rw [show (if ("" : String) ≠ "" then splitNewlines contents else []) = []
        from if_neg (fun h => h rfl), List.append_nil]
    rfl
  · rw [hread hkf]
    simp only [ne_eq, hkf, not_false_eq_true, if_true]

/-- C8: given that the key file (when configured) is readable, construction
fails with the missing-key error exactly when no key line survives the
split/trim/filter, and on success the key list is the ordered list of
surviving lines, inline-source lines first, then file lines, with the file
path carried through. -/
theorem newDecryptorFromEnv_spec (inlineKey keyFileVar contents : String)
    (readFile : String → Except String String)
    (hread : keyFileVar ≠ "" → readFile keyFileVar = .ok contents) :
    (newDecryptorFromEnv inlineKey keyFileVar readFile = .error missingKeyMsg ↔
      validEnvKeys inlineKey keyFileVar contents = []) ∧
    (∀ d, newDecryptorFromEnv inlineKey keyFileVar readFile = .ok d →
      d.ageKeys = validEnvKeys inlineKey keyFileVar contents ∧
        d.ageKeyFile = keyFileVar) := by
  rw [newDecryptorFromEnv_eq inlineKey keyFileVar contents readFile hread]
  by_cases hv : validEnvKeys inlineKey keyFileVar contents = []
  · simp [hv]
  · simp only [if_neg hv]
    constructor
    · simp [hv]
    · intro d hd
      cases hd
      exact ⟨rfl, rfl⟩

/-- Witness for C8 at concrete environment values: one comment line, one
blank line and one padded key inline; two lines in the key file. -/
theorem newDecryptorFromEnv_spec_witness :
    (("keys.txt" : String) ≠ "" →
      (fun p => if p = "keys.txt" then Except.ok "# file comment\nAGE-SECRET-KEY-B\n" else Except.error "open")
        "keys.txt" = Except.ok "# file comment\nAGE-SECRET-KEY-B\n") ∧
    (∀ d, newDecryptorFromEnv "# c\n\n  AGE-SECRET-KEY-A  " "keys.txt"
        (fun p => if p = "keys.txt" then Except.ok "# file comment\nAGE-SECRET-KEY-B\n" else Except.error "open") = .ok d →
      d.ageKeys = validEnvKeys "# c\n\n  AGE-SECRET-KEY-A  " "keys.txt"
          "# file comment\nAGE-SECRET-KEY-B\n" ∧
        d.ageKeyFile = "keys.txt") :=
  ⟨fun _ => rfl,
    (newDecryptorFromEnv_spec "# c\n\n  AGE-SECRET-KEY-A  " "keys.txt"
      "# file comment\nAGE-SECRET-KEY-B\n"
      (fun p => if p = "keys.txt" then Except.ok "# file comment\nAGE-SECRET-KEY-B\n" else Except.error "open")
      (fun _ => rfl)).2⟩

/-! ## Claim C9 — decryption driver error classification -/

/-- C9: when the subprocess invocation fails, deadline expiry of the child
context is reported as a timeout, cancellation as canceled, and a plain
non-zero exit as a subprocess failure; the timeout and canceled
classifications each occur in exactly one context state, so they are never
conflated. -/
theorem runSopsDecrypt_error_classification :
    (∀ msg st, runCommandResult .deadlineExceeded (.exitErr msg st) = .error .timeout) ∧
    (∀ msg st, runCommandResult .canceled (.exitErr msg st) = .error .canceled) ∧
    (∀ msg st, runCommandResult .none (.exitErr msg st) =
      .error (.subprocessFailed msg st)) ∧
    (∀ ctxErr msg st, runCommandResult ctxErr (.exitErr msg st) = .error .timeout ↔
      ctxErr = .deadlineExceeded) ∧
    (∀ ctxErr msg st, runCommandResult ctxErr (.exitErr msg st) = .error .canceled ↔
      ctxErr = .canceled) := by
  refine ⟨fun _ _ => rfl, fun _ _ => rfl, fun _ _ => rfl, ?_, ?_⟩
  · intro ctxErr msg st
    cases ctxErr <;> simp [runCommandResult, classifyRunError]
  · intro ctxErr msg st
    cases ctxErr <;> simp [runCommandResult, classifyRunError]

/-! ## Claim C10 — parsers and validator are total and fail soft -/

/-- C10: on every input — including malformed YAML, an empty document, a
non-mapping root (all of which the typed unmarshal reports as a parse
failure), a missing or non-mapping `spec`/`spec.data`, and arbitrary
binary data — each of `parseDecryptedYAML`, `parseCRDDecryptedYAML` and
`ValidateEncryptedYAML` returns either a value or an error; the enumerated
degenerate shapes all return errors. -/
theorem parsers_total_and_fail_soft :
    (∀ x, (∃ d, parseDecryptedYAML x = .ok d) ∨ ∃ e, parseDecryptedYAML x = .error e) ∧
    (∀ x, (∃ d, parseCRDDecryptedYAML x = .ok d) ∨
      ∃ e, parseCRDDecryptedYAML x = .error e) ∧
    (∀ p s, validateEncryptedYAML p s = .ok () ∨
      ∃ e, validateEncryptedYAML p s = .error e) ∧
    (parseDecryptedYAML .fail = .error "failed to parse decrypted YAML") ∧
    (parseCRDDecryptedYAML .fail = .error "failed to parse decrypted YAML") ∧
    (∀ raw, lookupKey raw "spec" = none → parseCRDDecryptedYAML (.root raw) =
      .error "missing or invalid 'spec' field in decrypted YAML") ∧
    (∀ raw sp, lookupKey raw "spec" = some (.map sp) → lookupKey sp "data" = none →
      parseCRDDecryptedYAML (.root raw) =
        .error "missing or invalid 'spec.data' field in decrypted YAML") ∧
    (∀ p, validateEncryptedYAML p "" = .error "empty YAML data") ∧
    (∀ p s, s ≠ "" → p s = .fail → validateEncryptedYAML p s = .error "invalid YAML") := by
  refine ⟨?_, ?_, ?_, rfl, rfl, ?_, ?_, fun _ => rfl, ?_⟩
  · intro x
    cases h : parseDecryptedYAML x with
    | ok d => exact Or.inl ⟨d, rfl⟩
    | error e => exact Or.inr ⟨e, rfl⟩
  · intro x
    cases h : parseCRDDecryptedYAML x with
    | ok d => exact Or.inl ⟨d, rfl⟩
    | error e => exact Or.inr ⟨e, rfl⟩
  · intro p s
    cases h : validateEncryptedYAML p s with
    | ok u => cases u; exact Or.inl rfl
    | error e => exact Or.inr ⟨e, rfl⟩
  · intro raw h
    simp [parseCRDDecryptedYAML, h]
  · intro raw sp h1 h2
    simp [parseCRDDecryptedYAML, h1, h2]
  · intro p s h1 h2
    simp [validateEncryptedYAML, h1, h2]

/-- Witness for C10 at concrete degenerate inputs: a root mapping without
`spec`, and non-empty unparsable input. -/
theorem parsers_total_and_fail_soft_witness :
    (lookupKey [("a", Yaml.str "b")] "spec" = none ∧
      parseCRDDecryptedYAML (.root [("a", Yaml.str "b")]) =
        .error "missing or invalid 'spec' field in decrypted YAML") ∧
    (("not: valid: yaml: :::" : String) ≠ "" ∧
      validateEncryptedYAML (fun _ => .fail) "not: valid: yaml: :::" = .error "invalid YAML") :=
  ⟨⟨rfl, parsers_total_and_fail_soft.2.2.2.2.2.1 [("a", Yaml.str "b")] rfl⟩,
    ⟨by decide, parsers_total_and_fail_soft.2.2.2.2.2.2.2.2 (fun _ => .fail) "not: valid: yaml: :::"
      (by decide) rfl⟩⟩

/-! ## Claim C5 — float conversion lemmas

The Go test `v == float64(int64(v))` holds for a well-formed finite float
exactly when its value is an integer in `[-2^63, 2^63)`. -/

theorem rhe_intCast (n : Int) : rhe (n : ℚ) = n := by
  unfold rhe
  rw [Int.floor_intCast]
  norm_num

theorem num_cast_of_den_one (q : ℚ) (h : q.den = 1) : ((q.num : ℚ)) = q :=
  (Rat.den_eq_one_iff q).mp h

theorem ratTrunc_of_den_one (q : ℚ) (h : q.den = 1) : ratTrunc q = q.num := by
  unfold ratTrunc
  rw [← num_cast_of_den_one q h, Int.floor_intCast, Int.ceil_intCast]
  split <;> rfl

theorem float64OfInt_den (t : Int) : (float64OfInt t).den = 1 := by
  unfold float64OfInt
  split
  · exact Rat.den_intCast t
  · rw [show ((rhe ((t : ℚ) / 2 ^ (t.natAbs.log2 - 52)) : ℚ) *
        2 ^ (t.natAbs.log2 - 52)) =
        (((rhe ((t : ℚ) / 2 ^ (t.natAbs.log2 - 52)) * 2 ^ (t.natAbs.log2 - 52) : Int)) : ℚ)
      by push_cast; ring]
    exact Rat.den_intCast _

theorem float64OfInt_neg2p63 : float64OfInt (-(2 ^ 63)) = -(2 ^ 63 : ℚ) := by
  have hlog : (-(2 ^ 63 : Int)).natAbs.log2 = 63 := by
    rw [show (-(2 ^ 63 : Int)).natAbs = 2 ^ 63 by decide, Nat.log2_eq_log_two,
      Nat.log_pow (by norm_num)]
  have harg : (((-(2 ^ 63) : Int)) : ℚ) / 2 ^ ((-(2 ^ 63) : Int).natAbs.log2 - 52) =
      ((-(2 ^ 52) : Int) : ℚ) := by
    rw [hlog]
    push_cast
    norm_num
  unfold float64OfInt
  rw [if_neg (by decide), harg, rhe_intCast, hlog]
  push_cast
  norm_num

theorem float64OfInt_of_wf (m e : Int) (hm : m.natAbs < 2 ^ 53)
    (hden : (f64Val m e).den = 1) :
    float64OfInt (f64Val m e).num = f64Val m e := by
  set v := f64Val m e with hv
  have hnum : ((v.num : ℚ)) = v := num_cast_of_den_one v hden
  by_cases hsmall : v.num.natAbs < 2 ^ 53
  · unfold float64OfInt
    rw [if_pos hsmall, hnum]
  · have h53n : 2 ^ 53 ≤ v.num.natAbs := le_of_not_lt hsmall
    have h53 : (2 ^ 53 : ℚ) ≤ |v| :=
      calc (2 ^ 53 : ℚ) ≤ (v.num.natAbs : ℚ) := by exact_mod_cast h53n
        _ = |((v.num : ℚ))| := by rw [Int.cast_natAbs, Int.cast_abs]
        _ = |v| := by rw [hnum]
    have habs : |v| = (m.natAbs : ℚ) * (2 : ℚ) ^ e := by
      rw [hv]
      unfold f64Val
      rw [abs_mul, abs_of_pos (zpow_pos (by norm_num : (0 : ℚ) < 2) e),
        Int.cast_natAbs, Int.cast_abs]
    have he1 : 1 ≤ e := by
      by_contra hcon
      push_neg at hcon
      have h2 : (2 : ℚ) ^ e ≤ 1 := zpow_le_one_of_nonpos₀ (by norm_num) (by omega)
      have hb : |v| ≤ (m.natAbs : ℚ) := by
        rw [habs]
        exact mul_le_of_le_one_right (by positivity) h2
      have : (2 ^ 53 : ℚ) ≤ (m.natAbs : ℚ) := le_trans h53 hb
      have : (2 ^ 53 : ℕ) ≤ m.natAbs := by exact_mod_cast this
      omega
    have hetn : ((e.toNat : Int)) = e := Int.toNat_of_nonneg (by omega)
    have hn : v.num = m * 2 ^ e.toNat := by
      have : ((v.num : ℚ)) = ((m * 2 ^ e.toNat : Int) : ℚ) := by
        rw [hnum, hv]
        unfold f64Val
        push_cast
        rw [← zpow_natCast (2 : ℚ) e.toNat, hetn]
      exact_mod_cast this
    have hnabs : v.num.natAbs = m.natAbs * 2 ^ e.toNat := by
      rw [hn, Int.natAbs_mul, Int.natAbs_pow]
      rfl
    have hn0 : v.num.natAbs ≠ 0 := by omega
    have hk53 : 53 ≤ v.num.natAbs.log2 := by
      rw [Nat.log2_eq_log_two]
      exact (Nat.pow_le_iff_le_log (by norm_num) hn0).mp h53n
    have hkup : v.num.natAbs.log2 ≤ 52 + e.toNat := by
      rw [Nat.log2_eq_log_two]
      have hlt : v.num.natAbs < 2 ^ (53 + e.toNat) := by
        rw [hnabs, pow_add]
        exact Nat.mul_lt_mul_of_lt_of_le hm (le_refl _) (by positivity)
      have := (Nat.lt_pow_iff_log_lt (by norm_num) hn0).mp hlt
      omega
    unfold float64OfInt
    rw [if_neg hsmall]
    generalize hgen : v.num.natAbs.log2 - 52 = sh
    have hsh_le : sh ≤ e.toNat := by omega
    have hdiv : ((v.num : ℚ)) / 2 ^ sh = ((m * 2 ^ (e.toNat - sh) : Int) : ℚ) := by
      have h2 : ((v.num : ℚ)) = ((m * 2 ^ (e.toNat - sh) : Int) : ℚ) * 2 ^ sh := by
        rw [hn]
        push_cast
        rw [mul_assoc, ← pow_add, show (e.toNat - sh) + sh = e.toNat by omega]
      rw [h2, mul_div_assoc,
        div_self (by positivity : ((2 : ℚ) ^ sh) ≠ 0), mul_one]
    rw [hdiv, rhe_intCast]
    push_cast
    rw [hv]
    unfold f64Val
    rw [mul_assoc, ← pow_add, show (e.toNat - sh) + sh = e.toNat by omega,
      ← zpow_natCast (2 : ℚ) e.toNat, hetn]

/-- The Go integrality test characterized: for a well-formed finite float,
`v == float64(int64(v))` holds iff the value is an integer in
`[-2^63, 2^63)`. -/
theorem float_test_iff (m e : Int) (hm : m.natAbs < 2 ^ 53) :
    f64Val m e = float64OfInt (goTruncInt64 (f64Val m e)) ↔
      ((f64Val m e).den = 1 ∧ -(2 ^ 63 : ℚ) ≤ f64Val m e ∧ f64Val m e < 2 ^ 63) := by
  constructor
  · intro htest
    unfold goTruncInt64 at htest
    by_cases hin : -(2 ^ 63 : ℚ) < f64Val m e ∧ f64Val m e < 2 ^ 63
    · rw [if_pos hin] at htest
      exact ⟨htest ▸ float64OfInt_den _, le_of_lt hin.1, hin.2⟩
    · rw [if_neg hin, float64OfInt_neg2p63] at htest
      rw [htest]
      refine ⟨?_, le_refl _, by norm_num⟩
      rw [show (-(2 ^ 63 : ℚ)) = ((-(2 ^ 63) : Int) : ℚ) by push_cast; ring]
      exact Rat.den_intCast _
  · rintro ⟨hden, hge, hlt⟩
    unfold goTruncInt64
    by_cases hgt : -(2 ^ 63 : ℚ) < f64Val m e
    · rw [if_pos ⟨hgt, hlt⟩, ratTrunc_of_den_one _ hden]
      exact (float64OfInt_of_wf m e hm hden).symm
    · have hveq : f64Val m e = -(2 ^ 63 : ℚ) := le_antisymm (not_lt.mp hgt) hge
      rw [if_neg (fun hc => hgt hc.1), float64OfInt_neg2p63, hveq]

/-- `int64(v)` equals the numerator for an integral in-range float. -/
theorem goTruncInt64_eq_num (q : ℚ) (hden : q.den = 1) (hge : -(2 ^ 63 : ℚ) ≤ q)
    (hlt : q < 2 ^ 63) : goTruncInt64 q = q.num := by
  unfold goTruncInt64
  by_cases hgt : -(2 ^ 63 : ℚ) < q
  · rw [if_pos ⟨hgt, hlt⟩]
    exact ratTrunc_of_den_one q hden
  · have hveq : q = -(2 ^ 63 : ℚ) := le_antisymm (not_lt.mp hgt) hge
    rw [if_neg (fun hc => hgt hc.1)]
    have : ((q.num : ℚ)) = ((-(2 ^ 63) : Int) : ℚ) := by
      rw [num_cast_of_den_one q hden, hveq]
      push_cast
      ring
    exact_mod_cast this.symm

/-! ## Claim C5 — decrypted-YAML conversion -/

/-- Well-formedness of a top-level value: floats carry a binary64 mantissa
(`|m| < 2^53`). -/
def floatWFb : Yaml → Bool
  | .float m _ => decide (m.natAbs < 2 ^ 53)
  | _ => true

/-- The byte view at key `k` of a successfully parsed legacy document. -/
def dataAt (x : YamlParse) (k : String) : Option (List Nat) :=
  match parseDecryptedYAML x with
  | .ok d => lookupKV d.Data k
  | .error _ => none

/-- The conversion the amended claim C5 describes: as the original claim,
except that an integral float is rendered as a decimal integer only when it
is representable as an `int64` (value in `[-2^63, 2^63)`); any other float
— non-integral or out of that range — is rendered with Go's `%g` shortest
round-trip form.  (`[]byte` values, which the claim's enumeration does not
mention, keep their byte content, as in the code.) -/
def amendedConvertValue (v : Yaml) : String :=
  match v with
  | .str s => s
  | .bytes s => s
  | .int n => goIntRepr n
  | .float m e =>
    if (f64Val m e).den = 1 ∧ -(2 ^ 63 : ℚ) ≤ f64Val m e ∧ f64Val m e < 2 ^ 63 then
      goIntRepr (f64Val m e).num
    else goFormatG m e
  | .bool b => goBoolRepr b
  | .null => ""
  | .map entries => trimNewline (yamlMarshal (.map entries))
  | .seq items => trimNewline (yamlMarshal (.seq items))

theorem lookupKV_map {α β : Type} (l : List (String × α)) (f : α → β) (k : String) :
    lookupKV (l.map (fun kv => (kv.1, f kv.2))) k = (lookupKV l k).map f := by
  induction l with
  | nil => rfl
  | cons kv rest ih =>
    obtain ⟨k1, v1⟩ := kv
    by_cases h : k1 = k
    · simp [lookupKV, h]
    · simp [lookupKV, h, ih]

theorem lookupKV_removeKey (l : List (String × Yaml)) (k0 k : String) :
    lookupKV (removeKey l k0) k = if k = k0 then none else lookupKV l k := by
  induction l with
  | nil => simp [removeKey, lookupKV]
  | cons kv rest ih =>
    obtain ⟨k1, v1⟩ := kv
    by_cases h1 : k1 = k0
    · have hstep : removeKey ((k1, v1) :: rest) k0 = removeKey rest k0 := by
        simp [removeKey, List.filter_cons, h1]
      rw [hstep, ih]
      by_cases hk : k = k0
      · simp [hk]
      · have hk1 : ¬ k1 = k := fun hh => hk (hh ▸ h1)
        simp [lookupKV, hk, hk1]
    · have hstep : removeKey ((k1, v1) :: rest) k0 = (k1, v1) :: removeKey rest k0 := by
        simp [removeKey, List.filter_cons, h1]
      rw [hstep]
      by_cases hk1 : k1 = k
      · subst hk1
        simp [lookupKV, h1]
      · simp only [lookupKV, if_neg hk1]
        rw [ih]

theorem lookupKV_mem {α : Type} (l : List (String × α)) (k : String) (v : α)
    (h : lookupKV l k = some v) : (k, v) ∈ l := by
  induction l with
  | nil => cases h
  | cons kv rest ih =>
    obtain ⟨k1, v1⟩ := kv
    by_cases h1 : k1 = k
    · subst h1
      simp [lookupKV] at h
      subst h
      exact List.mem_cons_self _ _
    · simp only [lookupKV, if_neg h1] at h
      exact List.mem_cons_of_mem _ (ih h)

/-- On well-formed values the code's conversion agrees with the amended
claim's conversion. -/
theorem convertValue_eq_amended (v : Yaml) (hwf : floatWFb v = true) :
    convertValue v = amendedConvertValue v := by
  cases v with
  | float m e =>
    have hm : m.natAbs < 2 ^ 53 := by
      simpa [floatWFb] using hwf
    show (if f64Val m e = float64OfInt (goTruncInt64 (f64Val m e)) then
        goIntRepr (goTruncInt64 (f64Val m e)) else goFormatG m e) =
      (if (f64Val m e).den = 1 ∧ -(2 ^ 63 : ℚ) ≤ f64Val m e ∧ f64Val m e < 2 ^ 63 then
        goIntRepr (f64Val m e).num else goFormatG m e)
    by_cases h : (f64Val m e).den = 1 ∧ -(2 ^ 63 : ℚ) ≤ f64Val m e ∧ f64Val m e < 2 ^ 63
    · rw [if_pos ((float_test_iff m e hm).mpr h), if_pos h,
        goTruncInt64_eq_num _ h.1 h.2.1 h.2.2]
    · rw [if_neg (fun ht => h ((float_test_iff m e hm).mp ht)), if_neg h]
  | str s => rfl
  | bytes s => rfl
  | int n => rfl
  | bool b => rfl
  | null => rfl
  | map entries => rfl
  | seq items => rfl

/-- C5 (amended): for every decrypted document whose root is a mapping of
well-formed values, the parser's string view has exactly the top-level keys
minus `sops`, each converted by type — strings verbatim, integers in
decimal, an integral float representable as `int64` in decimal,
other floats in Go's `%g` shortest round-trip form, booleans as
`true`/`false`, null as the empty string, composites as their canonical
YAML re-serialization with the trailing newline stripped — and the byte
view at every key is the UTF-8 encoding of the string view. -/
theorem stringDataAt_root (raw : List (String × Yaml)) (k : String) :
    stringDataAt (.root raw) k =
      lookupKV ((removeKey raw "sops").map (fun kv => (kv.1, convertValue kv.2))) k := rfl

theorem dataAt_root (raw : List (String × Yaml)) (k : String) :
    dataAt (.root raw) k =
      lookupKV ((removeKey raw "sops").map
        (fun kv => (kv.1, utf8Bytes (convertValue kv.2)))) k := rfl

theorem parseDecryptedYAML_conversion (raw : List (String × Yaml))
    (hwf : ∀ kv ∈ raw, floatWFb kv.2 = true) :
    (∀ k, stringDataAt (.root raw) k =
      if k = "sops" then none else (lookupKV raw k).map amendedConvertValue) ∧
    (∀ k, dataAt (.root raw) k = (stringDataAt (.root raw) k).map utf8Bytes) := by
  constructor
  · intro k
    rw [stringDataAt_root, lookupKV_map, lookupKV_removeKey]
    by_cases hk : k = "sops"
    · rw [if_pos hk, if_pos hk]
      rfl
    · rw [if_neg hk, if_neg hk]
      cases hlk : lookupKV raw k with
      | none => rfl
      | some v =>
        show some (convertValue v) = some (amendedConvertValue v)
        exact congrArg some (convertValue_eq_amended v (hwf _ (lookupKV_mem _ _ _ hlk)))
  · intro k
    have h1 : dataAt (.root raw) k =
        (lookupKV (removeKey raw "sops") k).map (fun s => utf8Bytes (convertValue s)) :=
      lookupKV_map (removeKey raw "sops") (fun s => utf8Bytes (convertValue s)) k
    have h2 : stringDataAt (.root raw) k =
        (lookupKV (removeKey raw "sops") k).map convertValue :=
      lookupKV_map (removeKey raw "sops") convertValue k
    rw [h1, h2]
    cases lookupKV (removeKey raw "sops") k <;> rfl

/-- Witness for C5's amended theorem at a concrete document with a `sops`
key to drop. -/
theorem parseDecryptedYAML_conversion_witness :
    (∀ kv ∈ [("user", Yaml.str "admin"), ("sops", Yaml.str "meta")],
      floatWFb kv.2 = true) ∧
    stringDataAt (.root [("user", Yaml.str "admin"), ("sops", Yaml.str "meta")])
      "sops" = none := by
  refine ⟨by decide, ?_⟩
  have h := (parseDecryptedYAML_conversion
    [("user", Yaml.str "admin"), ("sops", Yaml.str "meta")] (by decide)).1 "sops"
  simpa using h

/-- C5 counterexample: the decrypted document `x: 1e20` carries the float
`6103515625000000 * 2^14 = 10^20`, which is mathematically integral, yet
the parser stores `"1e+20"` (the `%g` rendering) for `x`, not the integer
representation `"100000000000000000000"` the claim requires: the code's
integrality test `v == float64(int64(v))` fails for integral floats at or
above `2^63`, whose `int64` conversion cannot round-trip. -/
theorem parseDecryptedYAML_integral_float_counterexample :
    stringDataAt (.root [("x", Yaml.float 6103515625000000 14)]) "x" =
      some (goFormatG 6103515625000000 14) ∧
    goFormatG 6103515625000000 14 = "1e+20" ∧
    (f64Val 6103515625000000 14).den = 1 ∧
    goIntRepr (f64Val 6103515625000000 14).num = "100000000000000000000" ∧
    ("1e+20" : String) ≠ "100000000000000000000" := by
  have hval : f64Val 6103515625000000 14 = ((10 ^ 20 : Int) : ℚ) := by
    unfold f64Val
    rw [show ((14 : ℤ)) = ((14 : ℕ) : ℤ) from rfl, zpow_natCast]
    push_cast
    norm_num
  have htr : goTruncInt64 (f64Val 6103515625000000 14) = -(2 ^ 63) := by
    unfold goTruncInt64
    rw [hval, if_neg]
    rintro ⟨-, hlt⟩
    have : ((10 ^ 20 : Int) : ℚ) < 2 ^ 63 := hlt
    norm_num at this
  have htest : ¬ (f64Val 6103515625000000 14 =
      float64OfInt (goTruncInt64 (f64Val 6103515625000000 14))) := by
    rw [htr, float64OfInt_neg2p63, hval]
    intro h
    norm_num at h
  have hconv : convertValue (.float 6103515625000000 14) =
      goFormatG 6103515625000000 14 := by
    show (if f64Val 6103515625000000 14 =
        float64OfInt (goTruncInt64 (f64Val 6103515625000000 14)) then
      goIntRepr (goTruncInt64 (f64Val 6103515625000000 14))
      else goFormatG 6103515625000000 14) = goFormatG 6103515625000000 14
    rw [if_neg htest]
  refine ⟨?_, by decide, ?_, ?_, by decide⟩
  · rw [stringDataAt_root, lookupKV_map, lookupKV_removeKey]
    rw [if_neg (by decide)]
    rw [show lookupKV [("x", Yaml.float 6103515625000000 14)] "x" =
        some (Yaml.float 6103515625000000 14) from rfl]
    show some (convertValue (Yaml.float 6103515625000000 14)) =
      some (goFormatG 6103515625000000 14)
    exact congrArg some hconv
  · rw [hval]
    exact Rat.den_intCast _
  · rw [hval, Rat.num_intCast]
    decide

/-! ## Reconciler outcome lemmas -/

theorem finalStatus_nil (s : SopsSecretRes) : finalStatus s [] = s.status := rfl

theorem finalStatus_append_statusWrite (s : SopsSecretRes) (acts : List Action)
    (st : SopsSecretStatusData) :
    finalStatus s (acts ++ [.statusWrite st]) = st := by
  simp [finalStatus, List.reverse_append, List.findSome?]

theorem finalStatus_updateStatusOutcome (env : Env) (s0 s : SopsSecretRes)
    (acts : List Action) :
    finalStatus s0 (updateStatusOutcome env s acts).actions = s.status := by
  cases h : env.statusUpdate <;>
    simp [updateStatusOutcome, h, finalStatus_append_statusWrite]

theorem updateStatusOutcome_res_ok (env : Env) (s : SopsSecretRes) (acts : List Action)
    (r : CtrlResult) (h : (updateStatusOutcome env s acts).res = .ok r) :
    env.statusUpdate = .ok ∧ r = requeue5min := by
  cases hst : env.statusUpdate with
  | ok =>
    simp only [updateStatusOutcome, hst] at h
    cases h
    exact ⟨rfl, rfl⟩
  | err e =>
    simp only [updateStatusOutcome, hst] at h
    cases h

theorem getCondition_setCondInList_self (conds : List ConditionData) (c : ConditionData) :
    getCondition (setCondInList conds c) c.condType = some c := by
  induction conds with
  | nil => simp [setCondInList, getCondition, List.find?]
  | cons c' rest ih =>
    by_cases h : c'.condType = c.condType
    · simp [setCondInList, h, getCondition, List.find?]
    · simp only [setCondInList, if_neg h]
      simp only [getCondition, List.find?] at ih ⊢
      rw [show (decide (c'.condType = c.condType)) = false by simp [h]]
      exact ih

theorem getCondition_setCondInList_other (conds : List ConditionData) (c : ConditionData)
    (t : String) (h : t ≠ c.condType) :
    getCondition (setCondInList conds c) t = getCondition conds t := by
  induction conds with
  | nil =>
    simp [setCondInList, getCondition, List.find?, Ne.symm h]
  | cons c' rest ih =>
    by_cases h' : c'.condType = c.condType
    · simp only [setCondInList, if_pos h']
      simp only [getCondition, List.find?]
      rw [show (decide (c.condType = t)) = false by simp [Ne.symm h],
        show (decide (c'.condType = t)) = false by simp [h', Ne.symm h]]
    · simp only [setCondInList, if_neg h']
      simp only [getCondition, List.find?] at ih ⊢
      cases hd : decide (c'.condType = t)
      · exact ih
      · rfl

/-! ## Claim C4 — digest-skip behaviour -/

/-- C4: on a pass where the resource is live (not deleting, finalizer
present, not suspended) and both the stored digest and the observed
generation match, the reconciler looks the derived Secret up and (a)
returns terminal success with no external action at all when it exists,
(b) falls through to the full main flow when the lookup is not-found, and
(c) returns the lookup error otherwise. -/
theorem reconcile_digest_skip (env : Env) (s : SopsSecretRes)
    (hf : env.fetch = .ok s) (hdel : s.deletionTimestamp = false)
    (hfin : finalizerName ∈ s.finalizers) (hsus : s.spec.suspend = false)
    (hhash : s.status.lastDecryptedHash = calculateHash s.spec.sopsSecret)
    (hgen : s.status.observedGeneration = s.generation) :
    (∀ v, env.getSecretSkip = .ok v → reconcile env = ⟨.ok emptyResult, []⟩) ∧
    (env.getSecretSkip = .notFound →
      reconcile env = reconcileMain env s (calculateHash s.spec.sopsSecret)) ∧
    (∀ e, env.getSecretSkip = .err e → reconcile env = ⟨.error e, []⟩) := by
  refine ⟨?_, ?_, ?_⟩
  · intro v hv
    simp [reconcile, hf, hdel, hfin, hsus, hhash, hgen, hv]
  · intro hv
    simp [reconcile, hf, hdel, hfin, hsus, hhash, hgen, hv]
  · intro e hv
    simp [reconcile, hf, hdel, hfin, hsus, hhash, hgen, hv]

/-! ## Claim C6 — deletion pass -/

/-- C6: in a deletion pass with the finalizer present, the derived Secret
is deleted only when the lookup found it and it is controlled by this
resource; when it is deleted, the delete (and its event) strictly precede
the finalizer-removing update in the action sequence; on a delete error or
a non-not-found lookup error the finalizer is not removed; an unowned
Secret of the same name is never deleted.  The deletion branch is what a
pass with a deletion timestamp runs. -/
theorem reconcileDelete_spec (env : Env) (s : SopsSecretRes)
    (hfin : finalizerName ∈ s.finalizers) :
    (∀ n, Action.deleteSecretAct n ∈ (reconcileDelete env s).actions →
      ∃ sv, env.getSecretDelete = .ok sv ∧ sv.controlledBy = true) ∧
    (∀ sv, env.getSecretDelete = .ok sv → sv.controlledBy = true →
      (env.deleteSecret = .ok ∨ env.deleteSecret = .notFound) →
      (reconcileDelete env s).actions =
        [.deleteSecretAct (getSecretName s), .eventNormal "SecretDeleted",
          .resourceUpdate (s.finalizers.filter (· ≠ finalizerName))]) ∧
    (∀ sv e, env.getSecretDelete = .ok sv → sv.controlledBy = true →
      env.deleteSecret = .err e →
      reconcileDelete env s = ⟨.error e, [.deleteSecretAct (getSecretName s)]⟩) ∧
    (∀ sv, env.getSecretDelete = .ok sv → sv.controlledBy = false →
      (reconcileDelete env s).actions =
        [.resourceUpdate (s.finalizers.filter (· ≠ finalizerName))]) ∧
    (env.getSecretDelete = .notFound →
      (reconcileDelete env s).actions =
        [.resourceUpdate (s.finalizers.filter (· ≠ finalizerName))]) ∧
    (∀ e, env.getSecretDelete = .err e → reconcileDelete env s = ⟨.error e, []⟩) ∧
    (∀ s', env.fetch = .ok s' → s'.deletionTimestamp = true →
      reconcile env = reconcileDelete env s') := by
  refine ⟨?_, ?_, ?_, ?_, ?_, ?_, ?_⟩
  · intro n hn
    cases hg : env.getSecretDelete with
    | ok sv =>
      cases hcb : sv.controlledBy
      · cases hu : env.updateResource <;>
          simp [reconcileDelete, hfin, hg, hcb, hu] at hn
      · exact ⟨sv, rfl, hcb⟩
    | notFound =>
      cases hu : env.updateResource <;>
        simp [reconcileDelete, hfin, hg, hu] at hn
    | err e =>
      simp [reconcileDelete, hfin, hg] at hn
  · intro sv hg hcb hd
    rcases hd with hd | hd <;>
      cases hu : env.updateResource <;>
        simp [reconcileDelete, hfin, hg, hcb, hd, hu]
  · intro sv e hg hcb hd
    simp [reconcileDelete, hfin, hg, hcb, hd]
  · intro sv hg hcb
    cases hu : env.updateResource <;>
      simp [reconcileDelete, hfin, hg, hcb, hu]
  · intro hg
    cases hu : env.updateResource <;>
      simp [reconcileDelete, hfin, hg, hu]
  · intro e hg
    simp [reconcileDelete, hfin, hg]
  · intro s' hf hdel
    simp [reconcile, hf, hdel]

/-! ## Claim C7 — validation failure handling -/

/-- The status the reconciler writes when payload validation fails:
`Decrypted=False` and `Ready=False`, both with reason `ValidationFailed`. -/
def validationFailedStatus (s : SopsSecretRes) (verr : String) : SopsSecretStatusData :=
  (setCondition (setCondition s "Decrypted" "False" "ValidationFailed"
      ("Invalid SOPS YAML: " ++ verr))
    "Ready" "False" "ValidationFailed" "SOPS YAML validation failed").status

/-- C7: when validation fails on a pass that reaches it (live resource,
stored digest differs) and the status write succeeds, the pass emits
exactly one warning event with reason `ValidationFailed` and one status
write carrying `Decrypted=False`/`Ready=False` with reason
`ValidationFailed`, returns a 5-minute requeue, and performs no decrypt
call and no Secret create, update or delete. -/
theorem reconcile_validation_failure (env : Env) (s : SopsSecretRes) (verr : String)
    (hf : env.fetch = .ok s) (hdel : s.deletionTimestamp = false)
    (hfin : finalizerName ∈ s.finalizers) (hsus : s.spec.suspend = false)
    (hnoskip : s.status.lastDecryptedHash ≠ calculateHash s.spec.sopsSecret)
    (hval : validateEncryptedYAML env.parseYaml s.spec.sopsSecret = .error verr)
    (hst : env.statusUpdate = .ok) :
    reconcile env = ⟨.ok requeue5min,
      [.eventWarning "ValidationFailed",
        .statusWrite (validationFailedStatus s verr)]⟩ ∧
    getCondition (validationFailedStatus s verr).conditions "Decrypted" =
      some ⟨"Decrypted", "False", s.generation, "ValidationFailed",
        "Invalid SOPS YAML: " ++ verr⟩ ∧
    getCondition (validationFailedStatus s verr).conditions "Ready" =
      some ⟨"Ready", "False", s.generation, "ValidationFailed",
        "SOPS YAML validation failed"⟩ ∧
    Action.decryptCall ∉ (reconcile env).actions ∧
    (∀ sec, Action.createSecretAct sec ∉ (reconcile env).actions) ∧
    (∀ sec, Action.updateSecretAct sec ∉ (reconcile env).actions) ∧
    (∀ n, Action.deleteSecretAct n ∉ (reconcile env).actions) := by
  have hmain : reconcile env = reconcileMain env s (calculateHash s.spec.sopsSecret) := by
    simp [reconcile, hf, hdel, hfin, hsus, hnoskip]
  have heq : reconcile env = ⟨.ok requeue5min,
      [.eventWarning "ValidationFailed",
        .statusWrite (validationFailedStatus s verr)]⟩ := by
    rw [hmain]
    simp [reconcileMain, hval, updateStatusOutcome, hst, validationFailedStatus]
  refine ⟨heq, ?_, ?_, ?_, ?_, ?_, ?_⟩
  · show getCondition (setCondInList (setCondInList s.status.conditions
        ⟨"Decrypted", "False", s.generation, "ValidationFailed",
          "Invalid SOPS YAML: " ++ verr⟩)
        ⟨"Ready", "False", s.generation, "ValidationFailed",
          "SOPS YAML validation failed"⟩) "Decrypted" = _
    rw [getCondition_setCondInList_other _ _ _ (by simp)]
    exact getCondition_setCondInList_self _ _
  · exact getCondition_setCondInList_self _
      ⟨"Ready", "False", s.generation, "ValidationFailed", "SOPS YAML validation failed"⟩
  · rw [heq]
    simp
  · intro sec
    rw [heq]
    simp
  · intro sec
    rw [heq]
    simp
  · intro n
    rw [heq]
    simp

/-! ## Claim C3 — digest correctness when Ready is set -/

/-- In the main flow, every non-error ending whose final status carries
`Ready=True` stores exactly the digest computed at the start of the
pass. -/
theorem reconcileMain_ready_digest (env : Env) (s : SopsSecretRes) (hash : String)
    (r : CtrlResult) (hres : (reconcileMain env s hash).res = .ok r)
    (c : ConditionData)
    (hc : getCondition (finalStatus s (reconcileMain env s hash).actions).conditions
      "Ready" = some c)
    (hcs : c.status = "True") :
    (finalStatus s (reconcileMain env s hash).actions).lastDecryptedHash = hash := by
  cases hval : validateEncryptedYAML env.parseYaml s.spec.sopsSecret with
  | error verr =>
    simp only [reconcileMain, hval] at hc
    rw [finalStatus_updateStatusOutcome] at hc
    have hself := getCondition_setCondInList_self
      (setCondInList s.status.conditions
        ⟨"Decrypted", "False", s.generation, "ValidationFailed",
          "Invalid SOPS YAML: " ++ verr⟩)
      ⟨"Ready", "False", s.generation, "ValidationFailed", "SOPS YAML validation failed"⟩
    have hcrec : c = (⟨"Ready", "False", s.generation, "ValidationFailed",
        "SOPS YAML validation failed"⟩ : ConditionData) :=
      Option.some.inj (hc.symm.trans hself)
    rw [hcrec] at hcs
    simp at hcs
  | ok u =>
    cases u
    cases hdec : env.decrypt with
    | error derr =>
      simp only [reconcileMain, hval, hdec] at hc
      rw [finalStatus_updateStatusOutcome] at hc
      have hself := getCondition_setCondInList_self
        (setCondInList s.status.conditions
          ⟨"Decrypted", "False", s.generation, "DecryptFailed", derr⟩)
        ⟨"Ready", "False", s.generation, "DecryptFailed", "Failed to decrypt SOPS data"⟩
      have hcrec : c = (⟨"Ready", "False", s.generation, "DecryptFailed",
          "Failed to decrypt SOPS data"⟩ : ConditionData) :=
        Option.some.inj (hc.symm.trans hself)
      rw [hcrec] at hcs
      simp at hcs
    | ok decrypted =>
      cases hso : env.setOwnerRef with
      | err e => simp [reconcileMain, hval, hdec, hso] at hres
      | ok =>
        cases hga : env.getSecretApply with
        | err e => simp [reconcileMain, hval, hdec, hso, hga] at hres
        | notFound =>
          cases hcr : env.createSecret with
          | err e => simp [reconcileMain, hval, hdec, hso, hga, hcr] at hres
          | ok =>
            simp only [reconcileMain, commitStatus, hval, hdec, hso, hga, hcr]
            rw [finalStatus_updateStatusOutcome]
            simp [setCondition]
        | ok ex =>
          cases hup : env.updateSecret with
          | err e => simp [reconcileMain, hval, hdec, hso, hga, hup] at hres
          | ok =>
            simp only [reconcileMain, commitStatus, hval, hdec, hso, hga, hup]
            rw [finalStatus_updateStatusOutcome]
            simp [setCondition]

/-- C3: for every reconciliation pass over a live resource (not deleting,
finalizer present, not suspended) that ends without error with the `Ready`
condition standing at `True`, the persisted `lastDecryptedHash` equals the
hex SHA-256 of the exact `spec.sopsSecret` bytes read at the start of the
pass. -/
theorem reconcile_ready_digest (env : Env) (s : SopsSecretRes)
    (hf : env.fetch = .ok s) (hdel : s.deletionTimestamp = false)
    (hfin : finalizerName ∈ s.finalizers) (hsus : s.spec.suspend = false)
    (r : CtrlResult) (hres : (reconcile env).res = .ok r)
    (c : ConditionData)
    (hc : getCondition (finalStatus s (reconcile env).actions).conditions "Ready" =
      some c)
    (hcs : c.status = "True") :
    (finalStatus s (reconcile env).actions).lastDecryptedHash =
      calculateHash s.spec.sopsSecret := by
  by_cases hskip : s.status.lastDecryptedHash = calculateHash s.spec.sopsSecret ∧
      s.status.observedGeneration = s.generation
  · cases hg : env.getSecretSkip with
    | ok v =>
      have heq : reconcile env = ⟨.ok emptyResult, []⟩ := by
        simp [reconcile, hf, hdel, hfin, hsus, hskip.1, hskip.2, hg]
      rw [heq]
      exact hskip.1
    | err e =>
      have heq : reconcile env = ⟨.error e, []⟩ := by
        simp [reconcile, hf, hdel, hfin, hsus, hskip.1, hskip.2, hg]
      rw [heq] at hres
      cases hres
    | notFound =>
      have heq : reconcile env = reconcileMain env s (calculateHash s.spec.sopsSecret) := by
        simp [reconcile, hf, hdel, hfin, hsus, hskip.1, hskip.2, hg]
      rw [heq] at hres hc ⊢
      exact reconcileMain_ready_digest env s _ r hres c hc hcs
  · have heq : reconcile env = reconcileMain env s (calculateHash s.spec.sopsSecret) := by
      rcases Decidable.em
          (s.status.lastDecryptedHash = calculateHash s.spec.sopsSecret) with hh | hh
      · rcases Decidable.em (s.status.observedGeneration = s.generation) with hg2 | hg2
        · exact absurd ⟨hh, hg2⟩ hskip
        · simp [reconcile, hf, hdel, hfin, hsus, hh, hg2]
      · simp [reconcile, hf, hdel, hfin, hsus, hh]
    rw [heq] at hres hc ⊢
    exact reconcileMain_ready_digest env s _ r hres c hc hcs

/-! ## Concrete reconciliation environments for witnesses -/

def wSpec : SopsSecretSpecData := ⟨"payload", "", "", [], [], false⟩

def wStatusReady : SopsSecretStatusData :=
  ⟨"app", calculateHash "payload", true, 1, [⟨"Ready", "True", 1, "Success", "ok"⟩]⟩

def wResReady : SopsSecretRes :=
  ⟨"app", "default", 1, false, [finalizerName], wSpec, wStatusReady⟩

/-- Environment for a digest-skip pass: the derived Secret exists. -/
def wEnvSkip : Env :=
  ⟨.ok wResReady, .ok, .ok ⟨true⟩, fun _ => .fail, .error "unused", .ok, .notFound,
    .ok, .ok, .ok, .notFound, .ok⟩

def wResDel : SopsSecretRes :=
  ⟨"app", "default", 1, true, [finalizerName], wSpec, ⟨"", "", false, 0, []⟩⟩

/-- Environment for a deletion pass: the derived Secret exists and is
controlled by the resource. -/
def wEnvDelete : Env :=
  ⟨.ok wResDel, .ok, .notFound, fun _ => .fail, .error "unused", .ok, .notFound,
    .ok, .ok, .ok, .ok ⟨true⟩, .ok⟩

def wResVal : SopsSecretRes :=
  ⟨"app", "default", 1, false, [finalizerName], wSpec, ⟨"", "", false, 0, []⟩⟩

/-- Environment for a validation-failure pass: the payload does not parse. -/
def wEnvVal : Env :=
  ⟨.ok wResVal, .ok, .notFound, fun _ => .fail, .error "unused", .ok, .notFound,
    .ok, .ok, .ok, .notFound, .ok⟩

/-- Witness for C3 at a concrete skip pass ending with `Ready=True`. -/
theorem reconcile_ready_digest_witness :
    (reconcile wEnvSkip).res = .ok emptyResult ∧
    (finalStatus wResReady (reconcile wEnvSkip).actions).lastDecryptedHash =
      calculateHash wResReady.spec.sopsSecret :=
  ⟨rfl, reconcile_ready_digest wEnvSkip wResReady rfl rfl (by simp [wResReady]) rfl
    emptyResult rfl ⟨"Ready", "True", 1, "Success", "ok"⟩ rfl rfl⟩

/-- Witness for C4 at the same concrete skip pass. -/
theorem reconcile_digest_skip_witness :
    wResReady.status.lastDecryptedHash = calculateHash wResReady.spec.sopsSecret ∧
    reconcile wEnvSkip = ⟨.ok emptyResult, []⟩ :=
  ⟨rfl, (reconcile_digest_skip wEnvSkip wResReady rfl rfl (by simp [wResReady]) rfl
    rfl rfl).1 ⟨true⟩ rfl⟩

/-- Witness for C6 at a concrete deletion pass over an owned Secret. -/
theorem reconcileDelete_spec_witness :
    wEnvDelete.getSecretDelete = .ok ⟨true⟩ ∧
    (reconcileDelete wEnvDelete wResDel).actions =
      [.deleteSecretAct "app", .eventNormal "SecretDeleted", .resourceUpdate []] :=
  ⟨rfl, (reconcileDelete_spec wEnvDelete wResDel (by simp [wResDel])).2.1 ⟨true⟩ rfl rfl
    (Or.inl rfl)⟩

/-- Witness for C7 at a concrete validation-failure pass. -/
theorem reconcile_validation_failure_witness :
    wResVal.status.lastDecryptedHash ≠ calculateHash wResVal.spec.sopsSecret ∧
    reconcile wEnvVal = ⟨.ok requeue5min,
      [.eventWarning "ValidationFailed",
        .statusWrite (validationFailedStatus wResVal "invalid YAML")]⟩ :=
  ⟨by decide,
    (reconcile_validation_failure wEnvVal wResVal "invalid YAML" rfl rfl
      (by simp [wResVal]) rfl (by decide) rfl rfl).1⟩

end SopsOperator

namespace SopsOperator

/-- C2: the validator accepts a payload whose `sops.mac` field is the empty
string, which the claim classifies as an input that must be rejected. -/
theorem validateEncryptedYAML_accepts_empty_mac :
    validateEncryptedYAML c2Parse "sops:\n  mac: \x22\x22\n" = .ok () ∧
      ¬ specC2Accepts c2Parse "sops:\n  mac: \x22\x22\n" := by
  constructor
  · rfl
  · rintro ⟨-, raw, sopsMap, mac, hraw, hsops, hmac, hne, -⟩
    simp [c2Parse] at hraw
    subst hraw
    simp [lookupKey] at hsops
    subst hsops
    simp [lookupKey] at hmac
    exact hne hmac.symm

/-- C2 (amended): the validator returns `.ok` exactly for those inputs that
are non-empty, parse to a root mapping, and carry a top-level `sops` mapping
containing a `mac` key (of any value); every other input yields an error. -/
theorem validateEncryptedYAML_ok_iff (parse : String → YamlParse)
    (data : String) :
    validateEncryptedYAML parse data = .ok () ↔
      amendedC2Accepts parse data := by
  unfold validateEncryptedYAML amendedC2Accepts
  by_cases hempty : data = ""
  · simp [hempty]
  · rw [if_neg hempty]
    constructor
    · intro h
      refine ⟨hempty, ?_⟩
      cases hp : parse data with
      | fail => simp [hp] at h
      | root raw =>
        cases hs : lookupKey raw "sops" with
        | none => simp [hp, hs] at h
        | some md =>
          cases md with
          | map sopsMap =>
            cases hm : lookupKey sopsMap "mac" with
            | none => simp [hp, hs, hm] at h
            | some mac => exact ⟨raw, sopsMap, mac, rfl, hs, hm⟩
          | str s => simp [hp, hs] at h
          | int n => simp [hp, hs] at h
          | float m e => simp [hp, hs] at h
          | bool b => simp [hp, hs] at h
          | null => simp [hp, hs] at h
          | bytes s => simp [hp, hs] at h
          | seq items => simp [hp, hs] at h
    · rintro ⟨-, r, sm, mac, hr, hsm, hmac⟩
      simp [hr, hsm, hmac]

end SopsOperator
